import Mathlib

/-!
Shallow embedding of the VO2 peak/plateau analysis pipeline
(src/峰值氧摄取量测定与平台判定.py) and proofs about its specification.

Pandas float cells are modelled by `FVal`: `nan` is the missing marker
(NaN), `inf`/`ninf` the two IEEE infinities, and `num q` a finite value
modelled as an exact rational.  Pandas columns are `List FVal`, a data
frame is an association list from column labels (lists of characters) to
columns, and operations that can raise a Python exception return
`Except String _`, the error string naming the exception.
-/

set_option autoImplicit false

/-- A pandas float cell: NaN (the missing marker), the infinities, or a
finite number modelled as a rational. -/
inductive FVal where
  | nan : FVal
  | inf : FVal
  | ninf : FVal
  | num : ℚ → FVal
deriving DecidableEq, Repr

/-- Predicate `pd.isna` on a float cell. -/
def isna : FVal → Bool
  | .nan => true
  | _ => false

/-- IEEE subtraction on the embedded float domain. -/
def fsub : FVal → FVal → FVal
  | .nan, _ => .nan
  | _, .nan => .nan
  | .inf, .inf => .nan
  | .inf, _ => .inf
  | .ninf, .ninf => .nan
  | .ninf, _ => .ninf
  | .num _, .inf => .ninf
  | .num _, .ninf => .inf
  | .num a, .num b => .num (a - b)

/-- IEEE addition on the embedded float domain. -/
def fadd : FVal → FVal → FVal
  | .nan, _ => .nan
  | _, .nan => .nan
  | .inf, .ninf => .nan
  | .ninf, .inf => .nan
  | .inf, _ => .inf
  | _, .inf => .inf
  | .ninf, _ => .ninf
  | _, .ninf => .ninf
  | .num a, .num b => .num (a + b)

/-- IEEE multiplication on the embedded float domain (0 * ±inf = NaN). -/
def fmul : FVal → FVal → FVal
  | .nan, _ => .nan
  | _, .nan => .nan
  | .inf, .inf => .inf
  | .inf, .ninf => .ninf
  | .ninf, .inf => .ninf
  | .ninf, .ninf => .inf
  | .inf, .num b => if b = 0 then .nan else if 0 < b then .inf else .ninf
  | .num a, .inf => if a = 0 then .nan else if 0 < a then .inf else .ninf
  | .ninf, .num b => if b = 0 then .nan else if 0 < b then .ninf else .inf
  | .num a, .ninf => if a = 0 then .nan else if 0 < a then .ninf else .inf
  | .num a, .num b => .num (a * b)

/-- IEEE division on the embedded float domain: this is what a pandas `/`
between float columns performs element-wise.  Division by zero yields a
signed infinity (NaN only for 0/0); it never raises. -/
def fdiv : FVal → FVal → FVal
  | .nan, _ => .nan
  | _, .nan => .nan
  | .inf, .inf => .nan
  | .inf, .ninf => .nan
  | .ninf, .inf => .nan
  | .ninf, .ninf => .nan
  | .inf, .num b => if 0 ≤ b then .inf else .ninf
  | .ninf, .num b => if 0 ≤ b then .ninf else .inf
  | .num _, .inf => .num 0
  | .num _, .ninf => .num 0
  | .num a, .num b =>
      if b = 0 then
        if a = 0 then .nan else if 0 < a then .inf else .ninf
      else .num (a / b)

/-- Pandas comparison `x < c` against a rational constant: NaN compares
false. -/
def fltQ (a : FVal) (c : ℚ) : Bool :=
  match a with
  | .nan => false
  | .inf => false
  | .ninf => true
  | .num q => q < c

/-- Pandas comparison `x >= c` against a rational constant: NaN compares
false. -/
def fgeQ (a : FVal) (c : ℚ) : Bool :=
  match a with
  | .nan => false
  | .inf => true
  | .ninf => false
  | .num q => c ≤ q

/-- Comparison `a <= b` between non-NaN floats (NaN compares false,
matching IEEE). -/
def fle : FVal → FVal → Bool
  | .nan, _ => false
  | _, .nan => false
  | .ninf, _ => true
  | _, .inf => true
  | .inf, .num _ => false
  | .inf, .ninf => false
  | .num _, .ninf => false
  | .num p, .num q => p ≤ q

/-- Pandas `Series.dropna()` on the values of a column. -/
def dropna (xs : List FVal) : List FVal :=
  xs.filter (fun v => !(isna v))

/-- Pandas `Series.dropna()` keeping the original integer index labels, as pandas
does: the retained entries are `(original row index, value)`. -/
def dropnaIdx (xs : List FVal) : List (ℕ × FVal) :=
  xs.enum.filter (fun p => !(isna p.2))

/-- The successive differences of a list (current minus previous). -/
def succDiffs : List FVal → List FVal
  | a :: b :: rest => fsub b a :: succDiffs (b :: rest)
  | _ => []

/-- Pandas `Series.diff()`: same length as the input, NaN in front of the
successive differences. -/
def pandasDiff (v : List FVal) : List FVal :=
  match v with
  | [] => []
  | _ :: _ => .nan :: succDiffs v

/-- Pandas `Series.iloc[-2:]`: the last two entries (the whole list when it is
shorter). -/
def lastTwo {α : Type} (xs : List α) : List α :=
  xs.drop (xs.length - 2)

/-- Pandas `Series.tail(n)`: the last `n` entries. -/
def tailN {α : Type} (n : ℕ) (xs : List α) : List α :=
  xs.drop (xs.length - n)

/-- Sum of a list of float cells. -/
def fsum (xs : List FVal) : FVal := xs.foldr fadd (.num 0)

/-- Pandas `Series.max()` with the default `skipna=True`: the maximum of the
non-NaN values, NaN when there are none. -/
def seriesMax (xs : List FVal) : FVal :=
  match dropna xs with
  | [] => .nan
  | v :: rest => rest.foldl fmax2 v
where fmax2 (a b : FVal) : FVal := if fle a b then b else a

/-- Pandas `Series.mean()` with the default `skipna=True`: sum of the non-NaN
values over their count, NaN for an empty or all-NaN series. -/
def seriesMean (xs : List FVal) : FVal :=
  let v := dropna xs
  if v.length = 0 then .nan else fdiv (fsum v) (.num v.length)

/-- Pandas `Series.idxmax()` scan: the label of the first entry holding the
maximum value (later entries replace the best only on strict increase). -/
def idxmaxGo : (ℕ × FVal) → List (ℕ × FVal) → ℕ
  | best, [] => best.1
  | best, p :: rest => if fle p.2 best.2 then idxmaxGo best rest else idxmaxGo p rest

/-- Pandas `Series.idxmax()` on a series that has already been `dropna`-ed: on an
empty series pandas raises `ValueError`, otherwise it returns the label of
the first occurrence of the maximum. -/
def idxmaxSeries : List (ℕ × FVal) → Except String ℕ
  | [] => .error "ValueError: attempt to get argmax of an empty sequence"
  | p :: rest => .ok (idxmaxGo p rest)

/-- Constant `ROLL_WINDOW_ROWS = 30 // 10` from the source. -/
def ROLL_WINDOW_ROWS : ℕ := 30 / 10

/-- Constant `VO2_PLATEAU_THRESHOLD = 0.15` from the source. -/
def VO2_PLATEAU_THRESHOLD : ℚ := 15 / 100

/-- Pandas `Series.rolling(window=w, min_periods=m).mean()`: at row `i` the
window is the at most `w` rows ending at `i`; the mean of its non-NaN
values is taken when their count is at least `max m 1`, else NaN. -/
def rolling_mean (w m : ℕ) (xs : List FVal) : List FVal :=
  (List.range xs.length).map (fun i =>
    let vals := dropna ((xs.take (i + 1)).drop (i + 1 - w))
    if m ≤ vals.length ∧ 1 ≤ vals.length then
      fdiv (fsum vals) (.num vals.length)
    else .nan)

/-- The plateau determination of `get_key_metrics_summary` (lines 77-79):
`vo2_series = df[col].dropna()`, `vo2_diff = vo2_series.diff()`,
`(vo2_diff.iloc[-2:] < VO2_PLATEAU_THRESHOLD).all() if len(vo2_diff) >= 2
else False`. -/
def is_plateau (vo2col : List FVal) : Bool :=
  let vo2_series := dropna vo2col
  let vo2_diff := pandasDiff vo2_series
  if 2 ≤ vo2_diff.length then
    (lastTwo vo2_diff).all (fun d => fltQ d VO2_PLATEAU_THRESHOLD)
  else false

/-- The plateau rule in the words of the specification: at least two
successive differences of consecutive non-missing values exist, and both
of the last two are strictly below the threshold. -/
def specPlateau (vo2col : List FVal) : Bool :=
  let diffs := succDiffs (dropna vo2col)
  decide (2 ≤ diffs.length) &&
    (lastTwo diffs).all (fun d => fltQ d VO2_PLATEAU_THRESHOLD)

/-- Round half to even on rationals (the rounding of Python `round`). -/
def roundHalfEven (x : ℚ) : ℤ :=
  let f := ⌊x⌋
  if x - f < 1 / 2 then f
  else if (1 : ℚ) / 2 < x - f then f + 1
  else if 2 ∣ f then f else f + 1

/-- Python `round(x, n)` on a float: NaN and the infinities pass through,
a finite value is rounded half-to-even at the `n`-th decimal. -/
def pyRound (x : FVal) (n : ℕ) : FVal :=
  match x with
  | .num q => .num ((roundHalfEven (q * 10 ^ n) : ℚ) / 10 ^ n)
  | v => v

/-- Truncation of a rational toward zero, the conversion of Python
`int` applied to a finite float. -/
def ratTrunc (q : ℚ) : ℤ := if 0 ≤ q then ⌊q⌋ else -⌊-q⌋

/-- Python `int(x)` on a float: truncates finite values, raises on NaN
and the infinities. -/
def pyIntOfFVal : FVal → Except String ℤ
  | .num q => .ok (ratTrunc q)
  | .inf => .error "OverflowError: cannot convert float infinity to integer"
  | .ninf => .error "OverflowError: cannot convert float infinity to integer"
  | .nan => .error "ValueError: cannot convert float NaN to integer"

/-- The apostrophe character (written by code to keep it out of string
literals). -/
def apos : Char := Char.ofNat 39

/-- The subscript-two character of the alias labels. -/
def sub2 : Char := Char.ofNat 8322

/-- Whitespace in the sense of Python `str.strip`. -/
def isSpaceChar (c : Char) : Bool :=
  c = ' ' || c = Char.ofNat 9 || c = Char.ofNat 10 || c = Char.ofNat 13

/-- Python `str.strip()`: drop whitespace from both ends. -/
def pyStrip (s : List Char) : List Char :=
  ((s.dropWhile isSpaceChar).reverse.dropWhile isSpaceChar).reverse

/-- The separator class of `re.split` pattern `[:.]`. -/
def isSepChar (c : Char) : Bool := c = ':' || c = '.'

/-- Python `re.split` on the character class `[:.]` (empty fields are kept, the
empty string yields one empty field). -/
def splitSep : List Char → List (List Char)
  | [] => [[]]
  | c :: rest =>
      if isSepChar c then [] :: splitSep rest
      else
        match splitSep rest with
        | p :: ps => (c :: p) :: ps
        | [] => [[c]]

/-- Value of a list of decimal digit characters. -/
def digitsVal (s : List Char) : ℕ :=
  s.foldl (fun acc c => 10 * acc + (c.toNat - 48)) 0

/-- Value of a nonempty all-digit character list, `none` otherwise. -/
def digitsVal? (s : List Char) : Option ℕ :=
  if s.isEmpty || !(s.all Char.isDigit) then none else some (digitsVal s)

/-- Python `int(s)` on a string: optional surrounding whitespace, an
optional sign, then decimal digits; anything else raises (here: `none`). -/
def pyInt? (s0 : List Char) : Option ℤ :=
  match pyStrip s0 with
  | [] => none
  | c :: rest =>
      if c = '-' then (digitsVal? rest).map (fun n => -(n : ℤ))
      else if c = '+' then (digitsVal? rest).map (fun n => (n : ℤ))
      else (digitsVal? (c :: rest)).map (fun n => (n : ℤ))

/-- Python `float(s)` restricted to the integer-literal fragment.  In
`parse_time` this branch only ever receives a string containing neither a
colon nor a dot (the `re.split` removed them), so the decimal time values
of the raw tables that reach it are integer literals. -/
def pyFloat? (s : List Char) : Option ℚ :=
  (pyInt? s).map (fun z => (z : ℚ))

/-- Function `parse_time` (source lines 38-50): split on `[:.]`; with three or
more fields parse the first three as H:MM:SS, with two fields as MM:SS,
with one field as a bare number; any conversion failure yields NaN. -/
def parse_time (s : List Char) : FVal :=
  match splitSep s with
  | p1 :: p2 :: p3 :: _ =>
      match pyInt? p1, pyInt? p2, pyInt? p3 with
      | some h, some m, some sec => .num ((h : ℚ) * 3600 + (m : ℚ) * 60 + (sec : ℚ))
      | _, _, _ => .nan
  | [p1, p2] =>
      match pyInt? p1, pyInt? p2 with
      | some m, some sec => .num ((m : ℚ) * 60 + (sec : ℚ))
      | _, _ => .nan
  | [p] =>
      match pyFloat? p with
      | some q => .num q
      | none => .nan
  | [] => .nan

/-- Pandas `Series.ffill()` scan carrying the last non-NaN value forward. -/
def ffillGo (last : FVal) : List FVal → List FVal
  | [] => []
  | v :: rest => if isna v then last :: ffillGo last rest else v :: ffillGo v rest

/-- Pandas `Series.ffill()`: forward-fill NaN cells from the nearest preceding
non-NaN cell; leading NaN cells stay NaN. -/
def ffill (xs : List FVal) : List FVal := ffillGo .nan xs

/-- The forward fill in the words of the specification: row `i` holds the
last non-missing value among rows `0..i`, missing when there is none. -/
def forwardFillSpec (xs : List FVal) : List FVal :=
  (List.range xs.length).map (fun i => (dropna (xs.take (i + 1))).getLastD .nan)

/-- Lines 51-52: the textual time column mapped through `parse_time` and
then forward-filled. -/
def processTimeColumn (cells : List (List Char)) : List FVal :=
  ffill (cells.map parse_time)

/-- Canonical channel label `V'O2`. -/
def cVO2 : List Char := ['V', apos, 'O', '2']

/-- Canonical channel label `V'CO2`. -/
def cVCO2 : List Char := ['V', apos, 'C', 'O', '2']

/-- Canonical channel label `V'E`. -/
def cVE : List Char := ['V', apos, 'E']

/-- Canonical channel label `HR`. -/
def cHR : List Char := ['H', 'R']

/-- Canonical channel label `VT`. -/
def cVT : List Char := ['V', 'T']

/-- Canonical channel label `BF`. -/
def cBF : List Char := ['B', 'F']

/-- The raw time column label `t`. -/
def cT : List Char := ['t']

/-- Alias label `Time`. -/
def cTime : List Char := ['T', 'i', 'm', 'e']

/-- Canonical label `BodyMass`. -/
def cBodyMass : List Char := ['B', 'o', 'd', 'y', 'M', 'a', 's', 's']

/-- Alias label `VO2`. -/
def cVO2plain : List Char := ['V', 'O', '2']

/-- Alias label `V'O₂`. -/
def cVO2sub : List Char := ['V', apos, 'O', sub2]

/-- Alias label `VCO2`. -/
def cVCO2plain : List Char := ['V', 'C', 'O', '2']

/-- Alias label `VCO₂`. -/
def cVCO2sub : List Char := ['V', 'C', 'O', sub2]

/-- Alias label `VE`. -/
def cVEplain : List Char := ['V', 'E']

/-- Alias label `V'E ` (with a trailing space, as in the source). -/
def cVEspace : List Char := ['V', apos, 'E', ' ']

/-- Alias label `HeartRate`. -/
def cHeartRate : List Char := ['H', 'e', 'a', 'r', 't', 'R', 'a', 't', 'e']

/-- Alias label `HR (bpm)`. -/
def cHRbpm : List Char := ['H', 'R', ' ', '(', 'b', 'p', 'm', ')']

/-- Alias label `体重` (body weight). -/
def cWeight : List Char := ['体', '重']

/-- Derived channel label `V'O2/kg`. -/
def cVO2kg : List Char := ['V', apos, 'O', '2', '/', 'k', 'g']

/-- Derived channel label `RER`. -/
def cRER : List Char := ['R', 'E', 'R']

/-- The `_30s` suffix appended to a smoothed channel label. -/
def c30s (c : List Char) : List Char := c ++ ['_', '3', '0', 's']

/-- The fixed alias-to-canonical mapping `CANONICAL_NAMES` of the source. -/
def CANONICAL_NAMES : List (List Char × List Char) :=
  [(cVO2plain, cVO2), (cVO2sub, cVO2),
   (cVCO2plain, cVCO2), (cVCO2sub, cVCO2),
   (cVEplain, cVE), (cVEspace, cVE),
   (cHeartRate, cHR), (cHRbpm, cHR),
   (cT, cT), (cTime, cT),
   (cWeight, cBodyMass)]

/-- Rename step `df.rename(columns=CANONICAL_NAMES)` on one label: an exact dictionary
lookup; a label that is not literally a key passes through. -/
def renameLabel (l : List Char) : List Char :=
  match CANONICAL_NAMES.find? (fun p => decide (p.1 = l)) with
  | some p => p.2
  | none => l

/-- Lines 33-34 on one raw label: strip surrounding whitespace, then the
exact rename lookup. -/
def normalizeRawLabel (l : List Char) : List Char :=
  renameLabel (pyStrip l)

/-- Case and whitespace folding used to state the claimed matching rule. -/
def foldLabel (l : List Char) : List Char :=
  (l.filter (fun c => !(isSpaceChar c))).map Char.toLower

/-- The Column Normalizer as the specification words it: a label matching
an alias under case-insensitive and whitespace-insensitive comparison is
replaced by the canonical name. -/
def specRenameLabel (l : List Char) : List Char :=
  match CANONICAL_NAMES.find? (fun p => decide (foldLabel p.1 = foldLabel l)) with
  | some p => p.2
  | none => l

/-- A data frame: an association list from column labels to columns. -/
abbrev Table : Type := List (List Char × List FVal)

/-- Membership test `c in df.columns`. -/
def hasCol (df : Table) (c : List Char) : Bool :=
  df.any (fun p => decide (p.1 = c))

/-- Column lookup. -/
def getCol? (df : Table) (c : List Char) : Option (List FVal) :=
  (df.find? (fun p => decide (p.1 = c))).map Prod.snd

/-- Column lookup with an empty default (used only behind a `hasCol`
guard). -/
def getColD (df : Table) (c : List Char) : List FVal :=
  (getCol? df c).getD []

/-- Lookup `df[c]`: raises `KeyError` when the column is absent. -/
def getColExc (df : Table) (c : List Char) : Except String (List FVal) :=
  match getCol? df c with
  | some col => .ok col
  | none => .error "KeyError"

/-- Assignment `df[c] = v`: overwrite the column when present, else append it. -/
def setCol (df : Table) (c : List Char) (v : List FVal) : Table :=
  if hasCol df c then df.map (fun p => if p.1 = c then (c, v) else p)
  else df ++ [(c, v)]

/-- Constant `COLS_TO_PROCESS` from the source. -/
def COLS_TO_PROCESS : List (List Char) := [cVO2, cVCO2, cVE, cHR, cVT, cBF]

/-- Function `perform_30s_rolling_average` (lines 62-67): copy the frame and, for
each configured channel present, add a `_30s` column holding the
3-row/3-minimum rolling mean of the raw column. -/
def perform_30s_rolling_average (df : Table) : Table :=
  COLS_TO_PROCESS.foldl
    (fun acc c =>
      if hasCol df c then
        setCol acc (c30s c) (rolling_mean ROLL_WINDOW_ROWS ROLL_WINDOW_ROWS (getColD df c))
      else acc)
    df

/-- Lines 141-143: `final_df = smoothed_df[smooth_cols + original_cols]`
where `smooth_cols` are the `_30s` columns of the processed channels and
`original_cols` are the raw columns NOT in `COLS_TO_PROCESS`. -/
def select_final_columns (df_raw : Table) : Table :=
  let smoothed := perform_30s_rolling_average df_raw
  let smooth_cols := (COLS_TO_PROCESS.map c30s).filter (fun c => hasCol smoothed c)
  let original_cols := (df_raw.map Prod.fst).filter (fun c => decide (¬ c ∈ COLS_TO_PROCESS))
  (smooth_cols ++ original_cols).map (fun c => (c, getColD smoothed c))

/-- Line 146 element-wise: the respiratory-exchange-ratio column is the
IEEE division of the smoothed CO2 column by the smoothed O2 column. -/
def rer_column (co2s o2s : List FVal) : List FVal :=
  List.zipWith fdiv co2s o2s

/-- Lines 145-146: append the mass-normalized O2 column and the RER
column to the final frame; a missing operand column raises `KeyError`. -/
def add_derived_columns (df : Table) : Except String Table := do
  let vo2s ← getColExc df (c30s cVO2)
  let mass ← getColExc df cBodyMass
  let df1 := setCol df (c30s cVO2kg)
    (List.zipWith (fun a b => fmul (fdiv a b) (.num 1000)) vo2s mass)
  let co2s ← getColExc df1 (c30s cVCO2)
  let vo2s2 ← getColExc df1 (c30s cVO2)
  pure (setCol df1 (c30s cRER) (rer_column co2s vo2s2))

/-- A value of the metrics summary: the `N/A` marker string, a float
(possibly NaN), or an `int(...)` result. -/
inductive SVal where
  | NA : SVal
  | fv : FVal → SVal
  | iv : ℤ → SVal
deriving DecidableEq, Repr

/-- The metrics summary record built by `get_key_metrics_summary`. -/
structure Summary where
  plateau : Bool
  vo2peak : SVal
  vo2peakKg : SVal
  veMax : SVal
  hrMax : SVal
  rerEnd : SVal
deriving DecidableEq, Repr

/-- Function `get_key_metrics_summary` (lines 70-93): mirrors the source statement
by statement; `df[col]` raises `KeyError` on an absent column and
`idxmax` raises `ValueError` on an empty series. -/
def get_key_metrics_summary (df : Table) : Except String Summary := do
  let vo2col ← getColExc df (c30s cVO2)
  let vo2_series := dropnaIdx vo2col
  let is_plat := is_plateau vo2col
  let vo2_peak_value := seriesMax vo2col
  let peak_idx ← idxmaxSeries vo2_series
  let vo2_peak_kg_value :=
    if hasCol df (c30s cVO2kg) then (getColD df (c30s cVO2kg)).getD peak_idx .nan
    else .nan
  let hrMaxVal ←
    if hasCol df (c30s cHR) && !(isna (seriesMax (getColD df (c30s cHR)))) then do
      let z ← pyIntOfFVal (seriesMax (getColD df (c30s cHR)))
      pure (SVal.iv z)
    else pure SVal.NA
  pure
    { plateau := is_plat
      vo2peak :=
        if isna vo2_peak_value then SVal.NA else SVal.fv (pyRound vo2_peak_value 2)
      vo2peakKg :=
        if isna vo2_peak_kg_value then SVal.NA else SVal.fv (pyRound vo2_peak_kg_value 1)
      veMax :=
        if hasCol df (c30s cVE) then SVal.fv (pyRound (seriesMax (getColD df (c30s cVE))) 1)
        else SVal.NA
      hrMax := hrMaxVal
      rerEnd :=
        if hasCol df (c30s cRER) then
          SVal.fv (pyRound (seriesMean (tailN 3 (dropna (getColD df (c30s cRER))))) 2)
        else SVal.NA }

/-- The decile targets `range(10, 101, 10)` of the percentage table. -/
def deciles : List ℕ := [10, 20, 30, 40, 50, 60, 70, 80, 90, 100]

/-- Line 100: the percentage-of-peak column `(vo2 / peak) * 100`. -/
def pctColumn (vo2s : List FVal) (peak : FVal) : List FVal :=
  vo2s.map (fun v => fmul (fdiv v peak) (.num 100))

/-- Function `get_vo2_percentage_table` (lines 96-113) on the smoothed O2 column:
empty for a None, zero, or NaN peak; otherwise, for each decile target in
ascending order, the first row whose percentage-of-peak is at least the
target (a decile no row reaches is omitted).  The result pairs each
reached target with its selected row index. -/
def get_vo2_percentage_table (vo2s : List FVal) (peak : Option FVal) : List (ℕ × ℕ) :=
  match peak with
  | none => []
  | some pv =>
      if decide (pv = .num 0) || isna pv then []
      else
        let pct := pctColumn vo2s pv
        deciles.filterMap (fun (p : ℕ) =>
          (pct.findIdx? (fun v => fgeQ v (p : ℚ))).map (fun (i : ℕ) => (p, i)))

/-- Row `i` reaches decile target `p` of peak `q`: its smoothed O2 value
is present and its percentage-of-peak is at least `p`. -/
def reachesPct (vo2s : List FVal) (q : ℚ) (p i : ℕ) : Prop :=
  ∃ v : ℚ, vo2s[i]? = some (.num v) ∧ (p : ℚ) ≤ v / q * 100

/-- Line 157 of the assembled pipeline: the percentage table is called
with the summary entry `VO₂max/peak (L·min⁻¹)` — the peak as formatted
for display.  A string `N/A` entry would reach the row division and raise
`TypeError` (after the column lookup), a numeric entry is used as the
peak. -/
def pct_table_call (df : Table) (peak : SVal) : Except String (List (ℕ × ℕ)) :=
  match peak with
  | SVal.fv f =>
      if decide (f = .num 0) || isna f then .ok []
      else
        match getCol? df (c30s cVO2) with
        | none => .error "KeyError"
        | some vo2col => .ok (get_vo2_percentage_table vo2col (some f))
  | SVal.iv z =>
      if z = 0 then .ok []
      else
        match getCol? df (c30s cVO2) with
        | none => .error "KeyError"
        | some vo2col => .ok (get_vo2_percentage_table vo2col (some (.num (z : ℚ))))
  | SVal.NA =>
      match getCol? df (c30s cVO2) with
      | none => .error "KeyError"
      | some _ => .error "TypeError: unsupported operand types"

/-- Lines 151 and 157 composed: compute the metrics summary of the final
frame, then build the percentage table against the summary's formatted
peak entry. -/
def assembled_pct_table (df : Table) : Except String (List (ℕ × ℕ)) := do
  let summary ← get_key_metrics_summary df
  pct_table_call df summary.vo2peak

/-- A small concrete raw frame (time, O2, CO2, body mass over three rows)
used to evaluate the assembled pipeline at a concrete input. -/
def exampleRawFrame : Table :=
  [(cT, [.num 0, .num 10, .num 20]),
   (cVO2, [.num 1, .num 1, .num 1]),
   (cVCO2, [.num 1, .num 1, .num 1]),
   (cBodyMass, [.num 70, .num 70, .num 70])]

/-!  ## Theorems  -/

theorem succDiffs_length (v : List FVal) : (succDiffs v).length = v.length - 1 := by
  match v with
  | [] => rfl
  | [_] => rfl
  | a :: b :: rest =>
      show (succDiffs (b :: rest)).length + 1 = _
      rw [succDiffs_length (b :: rest)]
      simp

theorem lastTwo_cons_of_two_le {α : Type} (a : α) (l : List α) (h : 2 ≤ l.length) :
    lastTwo (a :: l) = lastTwo l := by
  unfold lastTwo
  have h1 : (a :: l).length - 2 = (l.length - 2) + 1 := by
    simp only [List.length_cons]; omega
  rw [h1, List.drop_succ_cons]

theorem is_plateau_eq_spec (vo2col : List FVal) : is_plateau vo2col = specPlateau vo2col := by
  unfold is_plateau specPlateau
  match hv : dropna vo2col with
  | [] => simp [pandasDiff, succDiffs, lastTwo]
  | [a] => simp [pandasDiff, succDiffs, lastTwo, fltQ]
  | [a, b] => simp [pandasDiff, succDiffs, lastTwo, fltQ]
  | a :: b :: c :: rest =>
      have hlen : 2 ≤ (succDiffs (a :: b :: c :: rest)).length := by
        rw [succDiffs_length]; simp
      have hd : pandasDiff (a :: b :: c :: rest) = .nan :: succDiffs (a :: b :: c :: rest) := rfl
      dsimp only
      rw [hd, lastTwo_cons_of_two_le _ _ hlen]
      have hlen2 : 2 ≤ (FVal.nan :: succDiffs (a :: b :: c :: rest)).length := by
        simp only [List.length_cons]; omega
      simp [hlen, hlen2]
      intro _
      omega

/-- C1: for every smoothed oxygen-uptake column, the plateau flag is true
iff the series of consecutive non-missing values has at least two
successive differences and both of the last two are strictly below 0.15;
with fewer than two valid differences the flag is false.  The two example
tails of the specification evaluate as stated. -/
theorem C1_plateau_rule :
    (∀ vo2col : List FVal, is_plateau vo2col = specPlateau vo2col)
    ∧ is_plateau [.num (31/10), .num (161/50), .num (167/50)] = true
    ∧ is_plateau [.num 3, .num (16/5), .num (69/20)] = false :=
  ⟨is_plateau_eq_spec,
   by
    norm_num [is_plateau, dropna, isna, pandasDiff, succDiffs, fsub, lastTwo, fltQ,
      VO2_PLATEAU_THRESHOLD, List.filter, List.all],
   by
    norm_num [is_plateau, dropna, isna, pandasDiff, succDiffs, fsub, lastTwo, fltQ,
      VO2_PLATEAU_THRESHOLD, List.filter, List.all]⟩

/-- C2 counterexample: a row whose smoothed oxygen uptake is zero while
the smoothed carbon-dioxide output is positive makes the RER column hold
+infinity, not the missing marker: the IEEE column division of line 146
does not produce NaN for a nonzero numerator over zero. -/
theorem C2_rer_zero_counterexample :
    (rolling_mean 3 3 [.num 0, .num 0, .num 0])[2]? = some (.num 0)
    ∧ (rer_column (rolling_mean 3 3 [.num 1, .num 1, .num 1])
        (rolling_mean 3 3 [.num 0, .num 0, .num 0]))[2]? = some .inf
    ∧ FVal.inf ≠ FVal.nan :=
  ⟨by
    norm_num [rolling_mean, dropna, isna, fsum, fadd, fdiv, List.range, List.range.loop,
      List.filter],
   by
    norm_num [rer_column, rolling_mean, dropna, isna, fsum, fadd, fdiv, List.range,
      List.range.loop, List.filter, List.zipWith],
   by decide⟩

/-- C2 amended: the RER column is the element-wise division of the
smoothed CO2 column by the smoothed O2 column, and it never raises; a row
with missing smoothed O2 is missing, a zero-over-zero row is missing, a
missing-over-zero row is missing, but a nonzero numerator over a zero
smoothed O2 yields a signed infinity, not the missing marker. -/
theorem C2_rer_amended (co2s o2s : List FVal) (i : ℕ) (a b : FVal)
    (ha : co2s[i]? = some a) (hb : o2s[i]? = some b) :
    (rer_column co2s o2s)[i]? = some (fdiv a b)
    ∧ (b = .nan → fdiv a b = .nan)
    ∧ (b = .num 0 → a = .num 0 → fdiv a b = .nan)
    ∧ (b = .num 0 → a = .nan → fdiv a b = .nan)
    ∧ (∀ q : ℚ, b = .num 0 → a = .num q → 0 < q → fdiv a b = .inf)
    ∧ (∀ q : ℚ, b = .num 0 → a = .num q → q < 0 → fdiv a b = .ninf) := by
  refine ⟨?_, ?_, ?_, ?_, ?_, ?_⟩
  · unfold rer_column
    rw [List.getElem?_zipWith, ha, hb]
  · rintro rfl; cases a <;> rfl
  · rintro rfl rfl; rfl
  · rintro rfl rfl; rfl
  · rintro q rfl rfl hq
    simp [fdiv, hq, hq.ne.symm]
  · rintro q rfl rfl hq
    have h1 : ¬ (0 : ℚ) < q := by linarith
    simp [fdiv, hq.ne, h1]

/-- C2 amended, witness at row 0 of columns CO2 = [1], O2 = [0]. -/
theorem C2_rer_amended_witness :
    (rer_column [FVal.num 1] [FVal.num 0])[0]? = some (fdiv (.num 1) (.num 0)) :=
  (C2_rer_amended [FVal.num 1] [FVal.num 0] 0 (.num 1) (.num 0) rfl rfl).1

/-- C3 (code bug): on a frame whose smoothed oxygen-uptake column is
entirely missing, `get_key_metrics_summary` raises `ValueError` from
`idxmax` on the empty dropna-ed series (line 82) instead of resolving the
summary fields to the `N/A` marker. -/
theorem C3_empty_series_value_error :
    get_key_metrics_summary [(c30s cVO2, [.nan, .nan])]
      = .error "ValueError: attempt to get argmax of an empty sequence" := by
  rfl

/-- C4 counterexample: on a structurally valid frame that lacks the
primary oxygen-uptake channel, the core raises `KeyError` (line 77); it
does not return any typed summary value. -/
theorem C4_missing_channel_counterexample :
    get_key_metrics_summary [] = .error "KeyError"
    ∧ ∀ s : Summary, get_key_metrics_summary [] ≠ .ok s := by
  refine ⟨rfl, ?_⟩
  intro s h
  rw [show get_key_metrics_summary [] = .error "KeyError" from rfl] at h
  exact Except.noConfusion h

/-- C4 amended: whenever the smoothed frame has no `V'O2_30s` column, the
metrics summary computation raises `KeyError`, which propagates to the
caller; the core has no typed cannot-compute result. -/
theorem C4_missing_channel_amended (df : Table) (h : hasCol df (c30s cVO2) = false) :
    get_key_metrics_summary df = .error "KeyError" := by
  have h2 : df.find? (fun p => decide (p.1 = c30s cVO2)) = none := by
    rw [List.find?_eq_none]
    intro x hx
    have := List.any_eq_false.mp h x hx
    simpa using this
  unfold get_key_metrics_summary getColExc getCol?
  rw [h2]
  rfl

/-- C4 amended, witness at the empty frame. -/
theorem C4_missing_channel_amended_witness :
    get_key_metrics_summary ([(cT, [FVal.num 0])] : Table) = .error "KeyError" :=
  C4_missing_channel_amended [(cT, [FVal.num 0])] (by decide)

theorem splitSep_ne_nil (s : List Char) : splitSep s ≠ [] := by
  cases s with
  | nil => simp [splitSep]
  | cons c rest =>
      simp only [splitSep]
      split
      · simp
      · split
        · simp
        · simp

theorem splitSep_no_sep (s : List Char) (h : ∀ c ∈ s, isSepChar c = false) :
    splitSep s = [s] := by
  induction s with
  | nil => rfl
  | cons c rest ih =>
      have hc := h c (by simp)
      have hr : splitSep rest = [rest] := ih (fun x hx => h x (by simp [hx]))
      simp only [splitSep, hc, hr]
      simp

theorem splitSep_append_sep (a : List Char) (c : Char) (rest : List Char)
    (hc : isSepChar c = true) (h : ∀ x ∈ a, isSepChar x = false) :
    splitSep (a ++ c :: rest) = a :: splitSep rest := by
  induction a with
  | nil => simp [splitSep, hc]
  | cons d a2 ih =>
      have hd := h d (by simp)
      have ih2 := ih (fun x hx => h x (by simp [hx]))
      simp only [List.cons_append, splitSep, hd, Bool.false_eq_true, if_false, List.append_eq]
      rw [ih2]

theorem dropWhile_of_all_false {α : Type} (p : α → Bool) (l : List α)
    (h : ∀ x ∈ l, p x = false) : l.dropWhile p = l := by
  cases l with
  | nil => rfl
  | cons x xs => rw [List.dropWhile_cons, h x (by simp)]; simp

theorem pyStrip_of_no_space (s : List Char) (h : ∀ c ∈ s, isSpaceChar c = false) :
    pyStrip s = s := by
  unfold pyStrip
  rw [dropWhile_of_all_false _ _ h,
    dropWhile_of_all_false _ _ (fun x hx => h x (by simpa using hx))]
  exact List.reverse_reverse s

theorem digit_not_sep (c : Char) (h : c.isDigit = true) : isSepChar c = false := by
  rcases Bool.eq_false_or_eq_true (isSepChar c) with ht | hf
  · exfalso
    have hc : c = ':' ∨ c = '.' := by simpa [isSepChar] using ht
    rcases hc with rfl | rfl <;> exact absurd h (by decide)
  · exact hf

theorem digit_not_space (c : Char) (h : c.isDigit = true) : isSpaceChar c = false := by
  rcases Bool.eq_false_or_eq_true (isSpaceChar c) with ht | hf
  · exfalso
    simp only [isSpaceChar, Bool.or_eq_true, decide_eq_true_eq] at ht
    rcases ht with ((rfl | rfl) | rfl) | rfl <;> exact absurd h (by decide)
  · exact hf

theorem pyInt?_digits (a : List Char) (hne : a ≠ []) (hd : a.all Char.isDigit = true) :
    pyInt? a = some ((digitsVal a : ℤ)) := by
  have hall : ∀ c ∈ a, c.isDigit = true := by simpa using hd
  have hstrip : pyStrip a = a :=
    pyStrip_of_no_space a (fun c hc => digit_not_space c (hall c hc))
  cases a with
  | nil => exact absurd rfl hne
  | cons c rest =>
      have hcd : c.isDigit = true := hall c (by simp)
      have h1 : ¬ (c = '-') := fun h => absurd (h ▸ hcd) (by decide)
      have h2 : ¬ (c = '+') := fun h => absurd (h ▸ hcd) (by decide)
      unfold pyInt?
      rw [hstrip]
      simp only [if_neg h1, if_neg h2]
      unfold digitsVal?
      simp [hd]

theorem parse_time_hms (s1 s2 : Char) (a b c : List Char)
    (hs1 : isSepChar s1 = true) (hs2 : isSepChar s2 = true)
    (ha : a ≠ []) (hda : a.all Char.isDigit = true)
    (hb : b ≠ []) (hdb : b.all Char.isDigit = true)
    (hc : c ≠ []) (hdc : c.all Char.isDigit = true) :
    parse_time (a ++ s1 :: (b ++ s2 :: c))
      = .num ((digitsVal a : ℚ) * 3600 + (digitsVal b : ℚ) * 60 + (digitsVal c : ℚ)) := by
  have hsa : ∀ x ∈ a, isSepChar x = false :=
    fun x hx => digit_not_sep x (List.all_eq_true.mp hda x hx)
  have hsb : ∀ x ∈ b, isSepChar x = false :=
    fun x hx => digit_not_sep x (List.all_eq_true.mp hdb x hx)
  have hsc : ∀ x ∈ c, isSepChar x = false :=
    fun x hx => digit_not_sep x (List.all_eq_true.mp hdc x hx)
  have hsplit : splitSep (a ++ s1 :: (b ++ s2 :: c)) = a :: b :: [c] := by
    rw [splitSep_append_sep a s1 _ hs1 hsa, splitSep_append_sep b s2 _ hs2 hsb,
      splitSep_no_sep c hsc]
  unfold parse_time
  rw [hsplit]
  dsimp only
  rw [pyInt?_digits a ha hda, pyInt?_digits b hb hdb, pyInt?_digits c hc hdc]
  simp

theorem parse_time_ms (s1 : Char) (a b : List Char)
    (hs1 : isSepChar s1 = true)
    (ha : a ≠ []) (hda : a.all Char.isDigit = true)
    (hb : b ≠ []) (hdb : b.all Char.isDigit = true) :
    parse_time (a ++ s1 :: b) = .num ((digitsVal a : ℚ) * 60 + (digitsVal b : ℚ)) := by
  have hsa : ∀ x ∈ a, isSepChar x = false :=
    fun x hx => digit_not_sep x (List.all_eq_true.mp hda x hx)
  have hsb : ∀ x ∈ b, isSepChar x = false :=
    fun x hx => digit_not_sep x (List.all_eq_true.mp hdb x hx)
  have hsplit : splitSep (a ++ s1 :: b) = [a, b] := by
    rw [splitSep_append_sep a s1 _ hs1 hsa, splitSep_no_sep b hsb]
  unfold parse_time
  rw [hsplit]
  dsimp only
  rw [pyInt?_digits a ha hda, pyInt?_digits b hb hdb]
  simp

theorem parse_time_bare (a : List Char) (ha : a ≠ []) (hda : a.all Char.isDigit = true) :
    parse_time a = .num (digitsVal a : ℚ) := by
  have hsa : ∀ x ∈ a, isSepChar x = false :=
    fun x hx => digit_not_sep x (List.all_eq_true.mp hda x hx)
  unfold parse_time
  rw [splitSep_no_sep a hsa]
  dsimp only
  unfold pyFloat?
  rw [pyInt?_digits a ha hda]
  simp

theorem splitSep_two_le_of_sep_mem (s : List Char) (c : Char)
    (hc : isSepChar c = true) (hmem : c ∈ s) :
    2 ≤ (splitSep s).length := by
  induction s with
  | nil => simp at hmem
  | cons d rest ih =>
      by_cases hd : isSepChar d = true
      · have hpos : 0 < (splitSep rest).length :=
          List.length_pos.mpr (splitSep_ne_nil rest)
        simp only [splitSep, hd, if_true, List.length_cons]
        omega
      · have hdf : isSepChar d = false := by
          rcases Bool.eq_false_or_eq_true (isSepChar d) with ht | hf
          · exact absurd ht hd
          · exact hf
        have hcr : c ∈ rest := by
          rcases List.mem_cons.mp hmem with rfl | h
          · rw [hdf] at hc; exact absurd hc (by simp)
          · exact h
        have ih2 := ih hcr
        obtain ⟨p, ps, hps⟩ := List.exists_cons_of_ne_nil (splitSep_ne_nil rest)
        rw [hps] at ih2
        simp only [splitSep, hdf, Bool.false_eq_true, if_false]
        rw [hps]
        simpa using ih2

theorem dropna_cons_nan (v : FVal) (l : List FVal) (hv : isna v = true) :
    dropna (v :: l) = dropna l := by
  simp [dropna, List.filter_cons, hv]

theorem dropna_cons_val (v : FVal) (l : List FVal) (hv : isna v = false) :
    dropna (v :: l) = v :: dropna l := by
  simp [dropna, List.filter_cons, hv]

theorem ffillGo_eq_spec (xs : List FVal) : ∀ last : FVal,
    ffillGo last xs = (List.range xs.length).map
      (fun i => (dropna (xs.take (i + 1))).getLastD last) := by
  induction xs with
  | nil => intro last; rfl
  | cons v rest ih =>
      intro last
      rw [List.length_cons, List.range_succ_eq_map, List.map_cons, List.map_map]
      rcases Bool.eq_false_or_eq_true (isna v) with hv | hv
      · show (if isna v = true then last :: ffillGo last rest else v :: ffillGo v rest) = _
        rw [if_pos hv]
        congr 1
        · rw [show (v :: rest).take (0 + 1) = [v] from rfl, dropna_cons_nan v [] hv]
          rfl
        · rw [ih last]
          apply List.map_congr_left
          intro i _
          simp only [Function.comp_apply]
          rw [show (v :: rest).take (i.succ + 1) = v :: rest.take (i + 1) from rfl,
            dropna_cons_nan v _ hv]
      · show (if isna v = true then last :: ffillGo last rest else v :: ffillGo v rest) = _
        rw [if_neg (by simp [hv])]
        congr 1
        · rw [show (v :: rest).take (0 + 1) = [v] from rfl, dropna_cons_val v [] hv]
          rfl
        · rw [ih v]
          apply List.map_congr_left
          intro i _
          simp only [Function.comp_apply]
          rw [show (v :: rest).take (i.succ + 1) = v :: rest.take (i + 1) from rfl,
            dropna_cons_val v _ hv, List.getLastD_cons]

theorem ffill_eq_spec (xs : List FVal) : ffill xs = forwardFillSpec xs :=
  ffillGo_eq_spec xs .nan

/-- C5 counterexample: the bare numeric string `12.5` does not parse to
its numeric value 12.5 — `re.split` on the class `[:.]` also splits at
the decimal point, so it is read as MM:SS and parses to 725. -/
theorem C5_decimal_time_counterexample :
    parse_time ['1', '2', '.', '5'] = .num 725
    ∧ FVal.num 725 ≠ FVal.num (25 / 2) := by
  constructor
  · have h := parse_time_ms ('.') ['1', '2'] ['5'] (by decide) (by decide) (by decide)
      (by decide) (by decide)
    have h12 : digitsVal ['1', '2'] = 12 := rfl
    have h5 : digitsVal ['5'] = 5 := rfl
    rw [h12, h5] at h
    have heq : (['1', '2'] ++ '.' :: ['5'] : List Char) = ['1', '2', '.', '5'] := rfl
    rw [heq] at h
    rw [h]
    norm_num
  · intro h
    have := FVal.num.inj h
    norm_num at this

/-- C5 amended: the time parser splits the value on colons AND dots; with
at least three fields it parses the first three as H:MM:SS, with exactly
two fields as MM:SS (so a decimal numeric string such as `12.5` is read
as minutes and seconds), and only a field-free string as a bare number;
any value containing a dot or colon never takes the bare-number branch;
a failed parse yields the missing marker and the column is forward-filled
from the nearest preceding valid value, a missing first row staying
missing (the forward-fill specification below). -/
theorem C5_time_parsing_amended :
    (∀ (s1 s2 : Char) (a b c : List Char), isSepChar s1 = true → isSepChar s2 = true →
      a ≠ [] → a.all Char.isDigit = true → b ≠ [] → b.all Char.isDigit = true →
      c ≠ [] → c.all Char.isDigit = true →
      parse_time (a ++ s1 :: (b ++ s2 :: c))
        = .num ((digitsVal a : ℚ) * 3600 + (digitsVal b : ℚ) * 60 + (digitsVal c : ℚ)))
    ∧ (∀ (s1 : Char) (a b : List Char), isSepChar s1 = true →
      a ≠ [] → a.all Char.isDigit = true → b ≠ [] → b.all Char.isDigit = true →
      parse_time (a ++ s1 :: b) = .num ((digitsVal a : ℚ) * 60 + (digitsVal b : ℚ)))
    ∧ (∀ a : List Char, a ≠ [] → a.all Char.isDigit = true →
      parse_time a = .num (digitsVal a : ℚ))
    ∧ (∀ s : List Char, ('.' ∈ s ∨ ':' ∈ s) → 2 ≤ (splitSep s).length)
    ∧ (∀ cells : List (List Char),
        processTimeColumn cells = forwardFillSpec (cells.map parse_time)) := by
  refine ⟨parse_time_hms, parse_time_ms, parse_time_bare, ?_, ?_⟩
  · intro s hs
    rcases hs with h | h
    · exact splitSep_two_le_of_sep_mem s ('.') (by decide) h
    · exact splitSep_two_le_of_sep_mem s (':') (by decide) h
  · intro cells
    exact ffill_eq_spec (cells.map parse_time)

/-- C5 amended, witness: `1:02:03` parses as H:MM:SS to 3723 seconds. -/
theorem C5_time_parsing_amended_witness :
    parse_time (['1'] ++ ':' :: (['0', '2'] ++ ':' :: ['0', '3']))
      = .num ((digitsVal ['1'] : ℚ) * 3600 + (digitsVal ['0', '2'] : ℚ) * 60
          + (digitsVal ['0', '3'] : ℚ)) :=
  C5_time_parsing_amended.1 (':') (':') ['1'] ['0', '2'] ['0', '3'] (by decide) (by decide)
    (by decide) (by decide) (by decide) (by decide) (by decide) (by decide)

/-- C6 counterexample: the lowercase label `vo2` matches the alias `VO2`
under case-insensitive comparison, so the claimed rule would canonicalize
it; the code's `rename` is an exact (case-sensitive) dictionary lookup
and passes `vo2` through unchanged. -/
theorem C6_case_sensitivity_counterexample :
    normalizeRawLabel ['v', 'o', '2'] = ['v', 'o', '2']
    ∧ specRenameLabel ['v', 'o', '2'] = cVO2
    ∧ (['v', 'o', '2'] : List Char) ≠ cVO2 := by
  refine ⟨by decide, by decide, by decide⟩

/-- C6 amended: a raw label is first stripped of leading and trailing
whitespace only; the alias substitution is then an exact, case-sensitive
match of the stripped label against the alias table, a matching label
becoming its canonical name and any other label passing through as its
stripped form. -/
theorem C6_alias_matching_amended (l : List Char) :
    (∀ pr : List Char × List Char,
        CANONICAL_NAMES.find? (fun p => decide (p.1 = pyStrip l)) = some pr →
        normalizeRawLabel l = pr.2)
    ∧ (CANONICAL_NAMES.find? (fun p => decide (p.1 = pyStrip l)) = none →
        normalizeRawLabel l = pyStrip l) := by
  constructor
  · intro pr hpr
    unfold normalizeRawLabel renameLabel
    rw [hpr]
  · intro hnone
    unfold normalizeRawLabel renameLabel
    rw [hnone]

/-- C6 amended, witness: `" VO2 "` strips to the alias `VO2` and is
canonicalized. -/
theorem C6_alias_matching_amended_witness :
    normalizeRawLabel [' ', 'V', 'O', '2', ' '] = cVO2 :=
  (C6_alias_matching_amended [' ', 'V', 'O', '2', ' ']).1 (cVO2plain, cVO2) (by decide)

theorem getCol?_eq_none_of_hasCol_false (df : Table) (c : List Char)
    (h : hasCol df c = false) : getCol? df c = none := by
  unfold getCol?
  rw [List.find?_eq_none.mpr]
  · rfl
  · intro x hx
    have := List.any_eq_false.mp h x hx
    simpa using this

theorem find?_map_replace (df : Table) (c : List Char) (v : List FVal)
    (h : hasCol df c = true) :
    (df.map (fun p => if p.1 = c then (c, v) else p)).find? (fun p => decide (p.1 = c))
      = some (c, v) := by
  induction df with
  | nil => simp [hasCol] at h
  | cons p rest ih =>
      by_cases hp : p.1 = c
      · rw [List.map_cons, if_pos hp]
        exact List.find?_cons_of_pos _ (by simp)
      · have h2 : hasCol rest c = true := by
          simp only [hasCol, List.any_cons, Bool.or_eq_true, decide_eq_true_eq] at h
          rcases h with h | h
          · exact absurd h hp
          · exact h
        rw [List.map_cons, if_neg hp, List.find?_cons_of_neg _ (by simpa using hp)]
        exact ih h2

theorem find?_map_replace_ne (df : Table) (n c : List Char) (v : List FVal)
    (hne : n ≠ c) :
    (df.map (fun p => if p.1 = n then (n, v) else p)).find? (fun p => decide (p.1 = c))
      = df.find? (fun p => decide (p.1 = c)) := by
  induction df with
  | nil => rfl
  | cons p rest ih =>
      by_cases hp : p.1 = n
      · rw [List.map_cons, if_pos hp, List.find?_cons_of_neg _ (by simpa using hne),
          List.find?_cons_of_neg _ (by simp [hp, hne]), ih]
      · rw [List.map_cons, if_neg hp, List.find?_cons, List.find?_cons]
        cases hcp : decide (p.1 = c) <;> simp [hcp, ih]

theorem getCol?_setCol_self (df : Table) (c : List Char) (v : List FVal) :
    getCol? (setCol df c v) c = some v := by
  unfold setCol
  rcases Bool.eq_false_or_eq_true (hasCol df c) with ht | hf
  · rw [if_pos ht]
    unfold getCol?
    rw [find?_map_replace df c v ht]
    rfl
  · rw [if_neg (by simp [hf])]
    unfold getCol?
    rw [List.find?_append, List.find?_eq_none.mpr, Option.none_or,
      List.find?_cons_of_pos _ (by simp)]
    · rfl
    · intro x hx
      have := List.any_eq_false.mp hf x hx
      simpa using this

theorem getCol?_setCol_ne (df : Table) (n : List Char) (v : List FVal) (c : List Char)
    (hne : n ≠ c) : getCol? (setCol df n v) c = getCol? df c := by
  unfold setCol
  rcases Bool.eq_false_or_eq_true (hasCol df n) with ht | hf
  · rw [if_pos ht]
    unfold getCol?
    rw [find?_map_replace_ne df n c v hne]
  · rw [if_neg (by simp [hf])]
    unfold getCol?
    rw [List.find?_append, List.find?_cons_of_neg _ (by simpa using hne)]
    simp

theorem getCol?_if_setCol_ne (b : Bool) (acc : Table) (n c : List Char) (v : List FVal)
    (hne : n ≠ c) :
    getCol? (if b then setCol acc n v else acc) c = getCol? acc c := by
  cases b
  · rfl
  · simpa using getCol?_setCol_ne acc n v c hne

theorem getCol?_foldl_rolling (l : List (List Char)) (df : Table) (c : List Char)
    (h : ∀ n ∈ l, c30s n ≠ c) : ∀ acc : Table,
    getCol? (l.foldl (fun acc2 n =>
        if hasCol df n then
          setCol acc2 (c30s n) (rolling_mean ROLL_WINDOW_ROWS ROLL_WINDOW_ROWS (getColD df n))
        else acc2) acc) c
      = getCol? acc c := by
  induction l with
  | nil => intro acc; rfl
  | cons n l2 ih =>
      intro acc
      rw [List.foldl_cons, ih (fun x hx => h x (by simp [hx]))]
      exact getCol?_if_setCol_ne _ _ _ _ _ (h n (by simp))

theorem getCol?_perform_other (df : Table) (c : List Char)
    (h : ¬ c ∈ COLS_TO_PROCESS.map c30s) :
    getCol? (perform_30s_rolling_average df) c = getCol? df c := by
  unfold perform_30s_rolling_average
  exact getCol?_foldl_rolling COLS_TO_PROCESS df c
    (fun n hn he => h (he ▸ List.mem_map_of_mem c30s hn)) df

theorem getCol?_perform_of_mem (df : Table) (ch : List Char)
    (hmem : ch ∈ COLS_TO_PROCESS) (h : hasCol df ch = true) :
    getCol? (perform_30s_rolling_average df) (c30s ch)
      = some (rolling_mean ROLL_WINDOW_ROWS ROLL_WINDOW_ROWS (getColD df ch)) := by
  simp only [COLS_TO_PROCESS, List.mem_cons, List.not_mem_nil, or_false] at hmem
  rcases hmem with rfl | rfl | rfl | rfl | rfl | rfl <;>
    simp only [perform_30s_rolling_average, COLS_TO_PROCESS, List.foldl_cons,
      List.foldl_nil] <;>
    repeat rw [getCol?_if_setCol_ne _ _ _ _ _ (by decide)]
  all_goals rw [if_pos h, getCol?_setCol_self]

theorem rolling_mean_length (w m : ℕ) (xs : List FVal) :
    (rolling_mean w m xs).length = xs.length := by
  simp [rolling_mean]

theorem rolling_mean_getElem? (w m : ℕ) (xs : List FVal) (i : ℕ) (hi : i < xs.length) :
    (rolling_mean w m xs)[i]? = some (
      if m ≤ (dropna ((xs.take (i + 1)).drop (i + 1 - w))).length
          ∧ 1 ≤ (dropna ((xs.take (i + 1)).drop (i + 1 - w))).length then
        fdiv (fsum (dropna ((xs.take (i + 1)).drop (i + 1 - w))))
          (.num (dropna ((xs.take (i + 1)).drop (i + 1 - w))).length)
      else .nan) := by
  unfold rolling_mean
  rw [List.getElem?_map, List.getElem?_range hi]
  rfl

theorem window_three (xs : List FVal) (i : ℕ) (h2 : 2 ≤ i) (hi : i < xs.length)
    (a b c : FVal) (hA : xs[i - 2]? = some a) (hB : xs[i - 1]? = some b)
    (hC : xs[i]? = some c) :
    (xs.take (i + 1)).drop (i + 1 - 3) = [a, b, c] := by
  have h02 : i - 2 < xs.length := by omega
  have h01 : i - 1 < xs.length := by omega
  have e1 : i + 1 - 3 = i - 2 := by omega
  have e2 : (i - 2) + 3 = i + 1 := by omega
  have hstep : (xs.take (i + 1)).drop (i - 2) = (xs.drop (i - 2)).take 3 := by
    rw [List.take_drop, e2]
  have hxa : xs.get ⟨i - 2, h02⟩ = a := by
    have hg := List.getElem?_eq_getElem h02
    rw [hg] at hA
    simpa using hA
  have hxb : xs.get ⟨i - 1, h01⟩ = b := by
    have hg := List.getElem?_eq_getElem h01
    rw [hg] at hB
    simpa using hB
  have hxc : xs.get ⟨i, hi⟩ = c := by
    have hg := List.getElem?_eq_getElem hi
    rw [hg] at hC
    simpa using hC
  rw [e1, hstep]
  rw [List.drop_eq_getElem_cons h02]
  have e3 : i - 2 + 1 = i - 1 := by omega
  rw [e3, List.drop_eq_getElem_cons h01]
  have e4 : i - 1 + 1 = i := by omega
  rw [e4, List.drop_eq_getElem_cons hi]
  simp only [List.take_succ_cons, List.take_zero]
  rw [show xs[i - 2] = xs.get ⟨i - 2, h02⟩ from rfl,
    show xs[i - 1] = xs.get ⟨i - 1, h01⟩ from rfl,
    show xs[i] = xs.get ⟨i, hi⟩ from rfl, hxa, hxb, hxc]

theorem dropna_length_lt_of_nan_mem (l : List FVal) (h : FVal.nan ∈ l) :
    (dropna l).length < l.length := by
  induction l with
  | nil => simp at h
  | cons v rest ih =>
      rcases List.mem_cons.mp h with he | hr
      · rw [dropna_cons_nan v rest (by rw [← he]; rfl)]
        have hle := List.length_filter_le (fun x => !(isna x)) rest
        simp only [List.length_cons]
        unfold dropna
        omega
      · rcases Bool.eq_false_or_eq_true (isna v) with ht | hf
        · rw [dropna_cons_nan v rest ht]
          have hle := List.length_filter_le (fun x => !(isna x)) rest
          simp only [List.length_cons]
          unfold dropna
          omega
        · rw [dropna_cons_val v rest hf]
          simp only [List.length_cons]
          exact Nat.succ_lt_succ (ih hr)

/-- C7: the rolling smoother keeps the row count; at a row with three
consecutive non-missing raw values ending there, the smoothed value is
their simple mean, and whenever fewer than three non-missing consecutive
values end at a row (too early, or a NaN in the window) the smoothed
value is missing; for every configured channel present in the frame, the
smoother adds the `_30s` column holding this rolling mean of the raw
column. -/
theorem C7_rolling_smoother (xs : List FVal) :
    (rolling_mean 3 3 xs).length = xs.length
    ∧ (∀ (i : ℕ) (a b c : ℚ), 2 ≤ i → i < xs.length →
        xs[i - 2]? = some (.num a) → xs[i - 1]? = some (.num b) → xs[i]? = some (.num c) →
        (rolling_mean 3 3 xs)[i]? = some (.num ((a + b + c) / 3)))
    ∧ (∀ i : ℕ, i < xs.length →
        (i < 2 ∨ xs[i - 2]? = some .nan ∨ xs[i - 1]? = some .nan ∨ xs[i]? = some .nan) →
        (rolling_mean 3 3 xs)[i]? = some .nan)
    ∧ (∀ (df : Table) (ch : List Char), ch ∈ COLS_TO_PROCESS → hasCol df ch = true →
        getCol? (perform_30s_rolling_average df) (c30s ch)
          = some (rolling_mean ROLL_WINDOW_ROWS ROLL_WINDOW_ROWS (getColD df ch))) := by
  refine ⟨rolling_mean_length 3 3 xs, ?_, ?_,
    fun df ch hm h => getCol?_perform_of_mem df ch hm h⟩
  · intro i a b c h2 hi hA hB hC
    rw [rolling_mean_getElem? 3 3 xs i hi, window_three xs i h2 hi _ _ _ hA hB hC]
    have hd : dropna [FVal.num a, FVal.num b, FVal.num c]
        = [FVal.num a, FVal.num b, FVal.num c] := by
      simp [dropna, isna]
    rw [hd, if_pos (by constructor <;> norm_num)]
    simp only [fsum, List.foldr, fadd, fdiv, List.length_cons, List.length_nil]
    norm_num
    ring
  · intro i hi hdisj
    rw [rolling_mean_getElem? 3 3 xs i hi]
    by_cases h2 : i < 2
    · have l1 : (dropna ((xs.take (i + 1)).drop (i + 1 - 3))).length
          ≤ ((xs.take (i + 1)).drop (i + 1 - 3)).length := List.length_filter_le _ _
      have l2 : ((xs.take (i + 1)).drop (i + 1 - 3)).length ≤ (xs.take (i + 1)).length := by
        rw [List.length_drop]
        omega
      have l3 : (xs.take (i + 1)).length ≤ i + 1 := List.length_take_le _ _
      rw [if_neg (by omega)]
    · push_neg at h2
      have h02 : i - 2 < xs.length := by omega
      have h01 : i - 1 < xs.length := by omega
      obtain ⟨va, hva⟩ : ∃ v, xs[i - 2]? = some v := ⟨_, List.getElem?_eq_getElem h02⟩
      obtain ⟨vb, hvb⟩ : ∃ v, xs[i - 1]? = some v := ⟨_, List.getElem?_eq_getElem h01⟩
      obtain ⟨vc, hvc⟩ : ∃ v, xs[i]? = some v := ⟨_, List.getElem?_eq_getElem hi⟩
      rw [window_three xs i h2 hi va vb vc hva hvb hvc]
      have hnanmem : FVal.nan ∈ [va, vb, vc] := by
        rcases hdisj with hlt | hA | hB | hC
        · omega
        · have : va = FVal.nan := Option.some.inj (hva.symm.trans hA)
          rw [this]; simp
        · have : vb = FVal.nan := Option.some.inj (hvb.symm.trans hB)
          rw [this]; simp
        · have : vc = FVal.nan := Option.some.inj (hvc.symm.trans hC)
          rw [this]; simp
      have hlen : (dropna [va, vb, vc]).length < 3 := by
        have hl := dropna_length_lt_of_nan_mem [va, vb, vc] hnanmem
        simpa using hl
      rw [if_neg (by omega)]

/-- C7 witness: smoothing `[1, 2, 3]` at row 2 yields their mean. -/
theorem C7_rolling_smoother_witness :
    (rolling_mean 3 3 [FVal.num 1, FVal.num 2, FVal.num 3])[2]?
      = some (.num ((1 + 2 + 3) / 3)) :=
  (C7_rolling_smoother [FVal.num 1, FVal.num 2, FVal.num 3]).2.1 2 1 2 3 (by norm_num)
    (by norm_num) rfl rfl rfl

/-- C8 counterexample: the smoother's output still has the raw `V'O2`
column, but the pipeline's output table (`final_df`, lines 141-143, also
after the derived columns of lines 145-146 are added) drops the raw
columns of the processed channels: only the `_30s` columns and the
non-processed original columns are kept. -/
theorem C8_raw_columns_counterexample :
    hasCol (perform_30s_rolling_average exampleRawFrame) cVO2 = true
    ∧ hasCol (select_final_columns exampleRawFrame) cVO2 = false
    ∧ (match add_derived_columns (select_final_columns exampleRawFrame) with
        | .ok t => hasCol t cVO2
        | .error _ => true) = false := by
  refine ⟨by decide, by decide, by decide⟩

/-- C8 amended: the intermediate smoothed frame of
`perform_30s_rolling_average` retains every column that is not one of the
new `_30s` columns unmodified — in particular the raw columns of the
smoothed channels — but the final output frame selects only the `_30s`
columns plus the original columns not in `COLS_TO_PROCESS`, so the raw
column of every processed channel is absent from the output table. -/
theorem C8_columns_amended :
    (∀ (df : Table) (c : List Char), ¬ c ∈ COLS_TO_PROCESS.map c30s →
        getCol? (perform_30s_rolling_average df) c = getCol? df c)
    ∧ (∀ (df : Table) (c : List Char), c ∈ COLS_TO_PROCESS →
        hasCol (select_final_columns df) c = false) := by
  constructor
  · exact getCol?_perform_other
  · intro df c hc
    have hdisj : ∀ x ∈ COLS_TO_PROCESS, ¬ x ∈ COLS_TO_PROCESS.map c30s := by decide
    unfold select_final_columns hasCol
    dsimp only
    simp only [List.any_eq_false, Function.comp_apply, decide_eq_true_eq]
    intro x hx
    obtain ⟨n, hn, rfl⟩ := List.mem_map.mp hx
    simp only [decide_eq_true_eq]
    intro he
    rcases List.mem_append.mp hn with hs | ho
    · have hx2 := (List.mem_filter.mp hs).1
      exact hdisj c hc (he ▸ hx2)
    · have hx2 := (List.mem_filter.mp ho).2
      have hnot : ¬ n ∈ COLS_TO_PROCESS := by simpa using hx2
      exact hnot (he ▸ hc)

/-- C8 amended, witness: the smoother leaves the raw time column of the
example frame untouched. -/
theorem C8_columns_amended_witness :
    getCol? (perform_30s_rolling_average exampleRawFrame) cT
      = getCol? exampleRawFrame cT :=
  C8_columns_amended.1 exampleRawFrame cT (by decide)

theorem findIdx?_mono {α : Type} (P Q : α → Bool) (xs : List α)
    (h : ∀ x, Q x = true → P x = true) (i j : ℕ)
    (hP : xs.findIdx? P = some i) (hQ : xs.findIdx? Q = some j) : i ≤ j := by
  rw [List.findIdx?_eq_some_iff_getElem] at hP hQ
  obtain ⟨hi, hPi, hPmin⟩ := hP
  obtain ⟨hj, hQj, hQmin⟩ := hQ
  by_contra hlt
  push_neg at hlt
  exact (hPmin j hlt) (h _ hQj)

theorem fgeQ_mono (v : FVal) (p p2 : ℚ) (hle : p ≤ p2) (h : fgeQ v p2 = true) :
    fgeQ v p = true := by
  cases v with
  | nan => simp [fgeQ] at h
  | inf => rfl
  | ninf => simp [fgeQ] at h
  | num x =>
      simp only [fgeQ, decide_eq_true_eq] at h ⊢
      linarith

theorem fgeQ_pct_num (q : ℚ) (hq : 0 < q) (v : ℚ) (p : ℚ) :
    fgeQ (fmul (fdiv (.num v) (.num q)) (.num 100)) p = true ↔ p ≤ v / q * 100 := by
  have hq0 : q ≠ 0 := ne_of_gt hq
  simp [fdiv, fmul, fgeQ, hq0]

theorem fgeQ_pct_nan (pv : FVal) (p : ℚ) :
    fgeQ (fmul (fdiv .nan pv) (.num 100)) p = false := by
  cases pv <;> rfl

theorem pct_table_pos (vo2s : List FVal) (q : ℚ) (hq : q ≠ 0) :
    get_vo2_percentage_table vo2s (some (.num q))
      = deciles.filterMap (fun (p : ℕ) =>
          ((pctColumn vo2s (.num q)).findIdx? (fun v => fgeQ v (p : ℚ))).map
            (fun (i : ℕ) => (p, i))) := by
  unfold get_vo2_percentage_table
  dsimp only
  rw [if_neg]
  intro hcond
  rcases Bool.or_eq_true_iff.mp hcond with h | h
  · exact hq (FVal.num.inj (of_decide_eq_true h))
  · exact absurd h (by simp [isna])

theorem pred_iff_reaches (vo2s : List FVal) (q : ℚ) (hq : 0 < q)
    (hfin : ∀ v ∈ vo2s, v = .nan ∨ ∃ x : ℚ, v = .num x)
    (p j : ℕ) (w : FVal) (hw : vo2s[j]? = some w) :
    (fgeQ (fmul (fdiv w (.num q)) (.num 100)) (p : ℚ) = true)
      ↔ reachesPct vo2s q p j := by
  have hmem : w ∈ vo2s := List.getElem?_mem hw
  rcases hfin w hmem with hnan | ⟨x, hx⟩
  · subst hnan
    constructor
    · intro h
      rw [fgeQ_pct_nan] at h
      exact absurd h (by simp)
    · rintro ⟨v, hv, _⟩
      rw [hw] at hv
      exact FVal.noConfusion (Option.some.inj hv)
  · subst hx
    rw [fgeQ_pct_num q hq x (p : ℚ)]
    constructor
    · intro h
      exact ⟨x, hw, h⟩
    · rintro ⟨v, hv, hle⟩
      rw [hw] at hv
      rw [FVal.num.inj (Option.some.inj hv)]
      exact hle

theorem pctColumn_getElem? (vo2s : List FVal) (pv : FVal) (i : ℕ) :
    (pctColumn vo2s pv)[i]? = (vo2s[i]?).map (fun v => fmul (fdiv v pv) (.num 100)) := by
  unfold pctColumn
  rw [List.getElem?_map]

theorem findIdx?_some_spec {α : Type} (P : α → Bool) (xs : List α) (i : ℕ)
    (h : xs.findIdx? P = some i) :
    ∃ w, xs[i]? = some w ∧ P w = true
      ∧ ∀ j, j < i → ∀ u, xs[j]? = some u → P u = false := by
  rw [List.findIdx?_eq_some_iff_getElem] at h
  obtain ⟨hlen, hpred, hmin⟩ := h
  refine ⟨xs[i], List.getElem?_eq_getElem hlen, hpred, ?_⟩
  intro j hj u hu
  obtain ⟨hjl, hju⟩ := List.getElem?_eq_some_iff.mp hu
  rw [← hju]
  exact Bool.not_eq_true _ ▸ hmin j hj

theorem findIdx?_eq_some_of_spec {α : Type} (P : α → Bool) (xs : List α) (i : ℕ)
    (w : α) (hw : xs[i]? = some w) (hP : P w = true)
    (hmin : ∀ j, j < i → ∀ u, xs[j]? = some u → P u = false) :
    xs.findIdx? P = some i := by
  obtain ⟨hlen, hwi⟩ := List.getElem?_eq_some_iff.mp hw
  rw [List.findIdx?_eq_some_iff_getElem]
  refine ⟨hlen, by rw [hwi]; exact hP, ?_⟩
  intro j hj
  have hjl : j < xs.length := lt_trans hj hlen
  have := hmin j hj xs[j] (List.getElem?_eq_getElem hjl)
  simp [this]

/-- C9: for a positive numeric peak, the percentage table pairs each
decile target with the earliest row whose percentage-of-peak reaches it
(omitting unreached deciles), the selected row indices are non-decreasing
as the target increases (ascending decile order), any monotone time axis
therefore yields non-decreasing selected times, and a None, NaN, or zero
peak yields the empty table. -/
theorem C9_percentage_table (vo2s : List FVal) (q : ℚ) (hq : 0 < q)
    (hfin : ∀ v ∈ vo2s, v = .nan ∨ ∃ x : ℚ, v = .num x) :
    (∀ p i : ℕ, (p, i) ∈ get_vo2_percentage_table vo2s (some (.num q)) ↔
        p ∈ deciles ∧ i < vo2s.length ∧ reachesPct vo2s q p i
          ∧ ∀ j < i, ¬ reachesPct vo2s q p j)
    ∧ (get_vo2_percentage_table vo2s (some (.num q))).Pairwise
        (fun x y => x.1 < y.1 ∧ x.2 ≤ y.2)
    ∧ (∀ time : ℕ → ℚ, Monotone time →
        (get_vo2_percentage_table vo2s (some (.num q))).Pairwise
          (fun x y => time x.2 ≤ time y.2))
    ∧ get_vo2_percentage_table vo2s none = []
    ∧ get_vo2_percentage_table vo2s (some .nan) = []
    ∧ get_vo2_percentage_table vo2s (some (.num 0)) = [] := by
  have hq0 : q ≠ 0 := ne_of_gt hq
  have hpairmain : (get_vo2_percentage_table vo2s (some (.num q))).Pairwise
      (fun x y => x.1 < y.1 ∧ x.2 ≤ y.2) := by
    rw [pct_table_pos vo2s q hq0]
    have hdec : deciles.Pairwise (fun a b : ℕ => a < b) := by decide
    refine List.Pairwise.filterMap _ ?_ hdec
    intro p1 p2 hlt b hb b2 hb2
    obtain ⟨i1, hi1, rfl⟩ := Option.map_eq_some'.mp (Option.mem_def.mp hb)
    obtain ⟨i2, hi2, rfl⟩ := Option.map_eq_some'.mp (Option.mem_def.mp hb2)
    refine ⟨hlt, ?_⟩
    exact findIdx?_mono _ _ _
      (fun x hx => fgeQ_mono x (p1 : ℚ) (p2 : ℚ) (by exact_mod_cast le_of_lt hlt) hx)
      i1 i2 hi1 hi2
  refine ⟨?_, hpairmain, ?_, rfl, ?_, ?_⟩
  · intro p i
    rw [pct_table_pos vo2s q hq0, List.mem_filterMap]
    constructor
    · rintro ⟨p2, hp2, hmap⟩
      obtain ⟨i2, hfind, heq⟩ := Option.map_eq_some'.mp hmap
      injection heq with h1 h2
      rw [h1] at hp2 hfind
      rw [h2] at hfind
      obtain ⟨w2, hw2, hP2, hmin2⟩ := findIdx?_some_spec _ _ _ hfind
      rw [pctColumn_getElem?] at hw2
      obtain ⟨w, hw, hgw⟩ := Option.map_eq_some'.mp hw2
      have hlenv : i < vo2s.length := (List.getElem?_eq_some_iff.mp hw).1
      refine ⟨hp2, hlenv, ?_, ?_⟩
      · rw [← pred_iff_reaches vo2s q hq hfin p i w hw]
        rw [hgw]
        exact hP2
      · intro j hj hre
        have hjl : j < vo2s.length := lt_trans hj hlenv
        obtain ⟨u, hu⟩ : ∃ u, vo2s[j]? = some u := ⟨_, List.getElem?_eq_getElem hjl⟩
        have hPu := (pred_iff_reaches vo2s q hq hfin p j u hu).mpr hre
        have hfalse := hmin2 j hj (fmul (fdiv u (.num q)) (.num 100))
          (by rw [pctColumn_getElem?, hu]; rfl)
        rw [hPu] at hfalse
        exact Bool.noConfusion hfalse
    · rintro ⟨hp, hlen, hre, hmin⟩
      refine ⟨p, hp, ?_⟩
      obtain ⟨w, hw⟩ : ∃ w, vo2s[i]? = some w := ⟨_, List.getElem?_eq_getElem hlen⟩
      have hfind : (pctColumn vo2s (.num q)).findIdx? (fun v => fgeQ v (p : ℚ)) = some i := by
        apply findIdx?_eq_some_of_spec _ _ i (fmul (fdiv w (.num q)) (.num 100))
        · rw [pctColumn_getElem?, hw]; rfl
        · exact (pred_iff_reaches vo2s q hq hfin p i w hw).mpr hre
        · intro j hj u hu
          rw [pctColumn_getElem?] at hu
          obtain ⟨u0, hu0, hgu⟩ := Option.map_eq_some'.mp hu
          rcases Bool.eq_false_or_eq_true ((fun v => fgeQ v (p : ℚ)) u) with ht | hf
          · exfalso
            rw [← hgu] at ht
            exact hmin j hj ((pred_iff_reaches vo2s q hq hfin p j u0 hu0).mp ht)
          · exact hf
      rw [hfind]
      rfl
  · intro time hmono
    exact hpairmain.imp (fun hxy => hmono hxy.2)
  · rfl
  · unfold get_vo2_percentage_table
    dsimp only
    rw [if_pos]
    simp [isna]

/-- C9 witness at the one-row column `[1]` with peak 1. -/
theorem C9_percentage_table_witness :
    (0 : ℚ) < 1 ∧ (get_vo2_percentage_table [FVal.num 1] (some (.num 1))).Pairwise
      (fun x y => x.1 < y.1 ∧ x.2 ≤ y.2) :=
  ⟨by norm_num,
   (C9_percentage_table [FVal.num 1] 1 (by norm_num)
      (by
        intro v hv
        right
        exact ⟨1, by simpa using hv⟩)).2.1⟩

/-- C10: the assembled pipeline computes the percentage table against the
peak rounded to two decimals (the formatted summary entry), not the exact
maximum of the smoothed series; the summary's peak entry is the rounded
maximum, and on a concrete series with peak 3.454 the rounded peak 3.45
makes the attained percentage-of-peak of the selected rows 6908/69 > 100,
whereas the exact maximum would give exactly 100. -/
theorem C10_rounded_peak :
    (∀ (df : Table) (vo2col : List FVal) (s : Summary) (m : ℚ),
        getCol? df (c30s cVO2) = some vo2col →
        seriesMax vo2col = .num m →
        get_key_metrics_summary df = .ok s →
        s.vo2peak = SVal.fv (pyRound (.num m) 2)
        ∧ assembled_pct_table df
            = .ok (get_vo2_percentage_table vo2col (some (pyRound (.num m) 2))))
    ∧ pyRound (.num (1727/500)) 2 = .num (69/20)
    ∧ get_vo2_percentage_table [.num (1727/500)] (some (.num (69/20)))
        = [(10, 0), (20, 0), (30, 0), (40, 0), (50, 0),
           (60, 0), (70, 0), (80, 0), (90, 0), (100, 0)]
    ∧ (pctColumn [.num (1727/500)] (.num (69/20)))[0]? = some (.num (6908/69))
    ∧ (100 : ℚ) < 6908/69
    ∧ (pctColumn [.num (1727/500)] (seriesMax [.num (1727/500)]))[0]?
        = some (.num 100) := by
  refine ⟨?_, ?_, ?_, ?_, by norm_num, ?_⟩
  · intro df vo2col s m hcol hmax hok
    have hexc : getColExc df (c30s cVO2) = .ok vo2col := by
      unfold getColExc
      rw [hcol]
    have hpk : s.vo2peak = SVal.fv (pyRound (.num m) 2) := by
      unfold get_key_metrics_summary at hok
      rw [hexc] at hok
      simp only [Bind.bind, Except.bind] at hok
      cases hidx : idxmaxSeries (dropnaIdx vo2col) with
      | error e =>
          rw [hidx] at hok
          exact Except.noConfusion hok
      | ok idx =>
          rw [hidx] at hok
          rcases Bool.eq_false_or_eq_true (hasCol df (c30s cHR)
              && !(isna (seriesMax (getColD df (c30s cHR))))) with hc | hc
          · rw [hc] at hok
            simp only [if_true] at hok
            cases hz : pyIntOfFVal (seriesMax (getColD df (c30s cHR))) with
            | error e =>
                rw [hz] at hok
                exact Except.noConfusion hok
            | ok z =>
                rw [hz] at hok
                simp only [pure, Except.pure, Except.ok.injEq] at hok
                rw [← hok, hmax]
                simp [isna]
          · rw [hc] at hok
            simp only [Bool.false_eq_true, if_false] at hok
            simp only [pure, Except.pure, Except.ok.injEq] at hok
            rw [← hok, hmax]
            simp [isna]
    refine ⟨hpk, ?_⟩
    unfold assembled_pct_table
    rw [hok]
    simp only [Bind.bind, Except.bind]
    rw [hpk]
    unfold pct_table_call
    dsimp only
    unfold pyRound
    dsimp only
    rcases Bool.eq_false_or_eq_true
        (decide ((FVal.num ((roundHalfEven (m * 10 ^ 2) : ℚ) / 10 ^ 2)) = .num 0)
          || isna (.num ((roundHalfEven (m * 10 ^ 2) : ℚ) / 10 ^ 2))) with hc | hc
    · rw [if_pos hc]
      unfold get_vo2_percentage_table
      dsimp only
      rw [if_pos hc]
    · rw [if_neg (fun h => Bool.noConfusion (h ▸ hc)), hcol]
  · norm_num [pyRound, roundHalfEven]
  · norm_num [get_vo2_percentage_table, isna, deciles, pctColumn, fdiv, fmul, fgeQ,
      List.findIdx?, List.findIdx?_cons, List.filterMap, List.map]
  · norm_num [pctColumn, fdiv, fmul]
  · norm_num [pctColumn, fdiv, fmul, seriesMax, dropna, isna, List.filter]

/-- C10 witness: at a one-row smoothed frame the assembled pipeline calls
the percentage table with the rounded peak entry. -/
theorem C10_rounded_peak_witness :
    (Summary.mk false (SVal.fv (pyRound (.num (1727/500)) 2)) SVal.NA SVal.NA
        SVal.NA SVal.NA).vo2peak = SVal.fv (pyRound (.num (1727/500)) 2)
    ∧ assembled_pct_table [(c30s cVO2, [.num (1727/500)])]
        = .ok (get_vo2_percentage_table [.num (1727/500)]
            (some (pyRound (.num (1727/500)) 2))) :=
  C10_rounded_peak.1 [(c30s cVO2, [.num (1727/500)])] [.num (1727/500)]
    (Summary.mk false (SVal.fv (pyRound (.num (1727/500)) 2)) SVal.NA SVal.NA
      SVal.NA SVal.NA) (1727/500) rfl rfl rfl
